import Mathlib

/-!
Formal model of the transport core of byteplus-sdk-go-rec-core.

The Go source is shallowly embedded: pure functions become Lean functions,
stateful methods become explicit state passing, Go float64 counters that only
ever move by one are modelled exactly as integers, and float64 rates and
scores as rationals (all values arising here are small dyadic numbers on
which float64 comparison agrees with the rational order).  Go maps are
modelled as association lists with unique keys; Go buffered channels as a
capacity plus a list.  Loops are embedded with an explicit fuel argument
(fuel exhaustion returns the state unchanged), and the stated lemmas hold
for every fuel, while concrete evaluations use ample fuel.
-/

set_option linter.unusedSectionVars false

namespace RecCore

/-! ## Sliding window failure tracker (ping_host_availabler.go) -/

/-- Model of the Go struct window: fixed-size circular buffer of outcomes
plus an incrementally maintained failure counter.  Go stores failureCount
as a float64 that only ever changes by plus or minus one, so an integer
models it exactly. -/
structure Window where
  size : Nat
  items : List Bool
  head : Nat
  tail : Nat
  failureCount : Int
deriving Repr, DecidableEq

/-- newWindow from ping_host_availabler.go: all slots optimistic true,
head at size-1, tail at 0, zero failure count. -/
def newWindow (size : Nat) : Window :=
  { size := size
    items := List.replicate size true
    head := size - 1
    tail := 0
    failureCount := 0 }

/-- window.put from ping_host_availabler.go, transcribed statement by
statement.  The read items[tail] is always in range (tail < size = length);
getD supplies a default that is never used. -/
def Window.put (w : Window) (success : Bool) : Window :=
  let fc := if !success then w.failureCount + 1 else w.failureCount
  let head := (w.head + 1) % w.size
  let items := w.items.set head success
  let tail := (w.tail + 1) % w.size
  let removingItem := items.getD tail true
  let fc := if !removingItem then fc - 1 else fc
  { size := w.size, items := items, head := head, tail := tail, failureCount := fc }

/-- window.failureRate from ping_host_availabler.go: failureCount / size. -/
def Window.failureRate (w : Window) : ℚ :=
  (w.failureCount : ℚ) / (w.size : ℚ)

/-- Sequence of put calls, oldest first. -/
def Window.putAll (w : Window) (outcomes : List Bool) : Window :=
  outcomes.foldl Window.put w

/-- Number of false entries currently stored in the buffer. -/
def countFalse (items : List Bool) : Nat :=
  items.countP (fun b => !b)

/-! ## Host config and GetHost (base_host_availabler.go) -/

/-- A Go map from path to host list, modelled as an association list with
unique keys (Go map iteration order is irrelevant to the proved claims). -/
abbrev HostConfig := List (String × List String)

/-- Lookup of a key in a host config, mirroring Go map access
(exist = isSome). -/
def cfgLookup (cfg : HostConfig) (path : String) : Option (List String) :=
  List.lookup path cfg

/-- HostAvailablerBase.GetHost: return the first host of an existing
non-empty entry for the path, else hostConfig of the wildcard at index 0.
The Go code indexes the wildcard list unconditionally and would panic if
the wildcard entry were missing or empty; Option none models that. -/
def GetHost (cfg : HostConfig) (path : String) : Option String :=
  match cfgLookup cfg path with
  | some pathHosts =>
      if 0 < pathHosts.length then pathHosts.head?
      else (cfgLookup cfg "*").bind List.head?
  | none => (cfgLookup cfg "*").bind List.head?

/-! ## Go sort.Slice (pdqsort, Go 1.19+ standard library)

copyAndSortHost sorts each path's host slice with sort.Slice, whose
behaviour (in particular its instability) matters to the claims, so the
library routine is embedded faithfully from Go's sort package (zsortfunc.go,
Go 1.19 through current).  The slice is a List, index reads use a default
that in-range executions never hit, and every loop carries fuel. -/

section GoSort

variable {α : Type _} [Inhabited α]

/-- Read of data at an index (always in range in real executions). -/
def elemAt (l : List α) (i : Nat) : α := l.getD i default

/-- data.Less(i, j) of the lessSwap closure: compares current elements. -/
def lessAt (less : α → α → Bool) (l : List α) (i j : Nat) : Bool :=
  less (elemAt l i) (elemAt l j)

/-- data.Swap(i, j); out-of-range indices (never hit in range in real
executions) leave the slice unchanged so that permutation is unconditional. -/
def swapD (l : List α) (i j : Nat) : List α :=
  if h : i < l.length ∧ j < l.length then
    (l.set i (l.get ⟨j, h.2⟩)).set j (l.get ⟨i, h.1⟩)
  else l

/-- bits.Len for the pdqsort depth limit and nextPowerOfTwo. -/
def bitsLen (n : Nat) : Nat := if n = 0 then 0 else Nat.log2 n + 1

/-- Inner shift loop of insertionSort_func. -/
def insertionSortInner (less : α → α → Bool) (a : Nat) :
    Nat → List α → Nat → List α
  | 0, l, _ => l
  | fuel+1, l, j =>
    if decide (a < j) && lessAt less l j (j-1) then
      insertionSortInner less a fuel (swapD l j (j-1)) (j-1)
    else l

/-- Outer loop of insertionSort_func. -/
def insertionSortOuter (less : α → α → Bool) (a b : Nat) :
    Nat → List α → Nat → List α
  | 0, l, _ => l
  | fuel+1, l, i =>
    if decide (i < b) then
      insertionSortOuter less a b fuel (insertionSortInner less a fuel l i) (i+1)
    else l

/-- insertionSort_func from Go sort. -/
def insertionSortGo (less : α → α → Bool) (a b fuel : Nat) (l : List α) : List α :=
  insertionSortOuter less a b fuel l (a+1)

/-- siftDown_func from Go sort. -/
def siftDownGo (less : α → α → Bool) (hi first : Nat) :
    Nat → List α → Nat → List α
  | 0, l, _ => l
  | fuel+1, l, root =>
    let child := 2*root + 1
    if decide (hi ≤ child) then l
    else
      let child :=
        if decide (child+1 < hi) && lessAt less l (first+child) (first+child+1)
        then child+1 else child
      if !(lessAt less l (first+root) (first+child)) then l
      else siftDownGo less hi first fuel (swapD l (first+root) (first+child)) child

/-- Heap construction loop of heapSort_func (i from (hi-1)/2 down to 0). -/
def heapSortBuild (less : α → α → Bool) (hi first : Nat) :
    Nat → List α → Nat → List α
  | 0, l, _ => l
  | fuel+1, l, i =>
    let l := siftDownGo less hi first fuel l i
    if i = 0 then l else heapSortBuild less hi first fuel l (i-1)

/-- Extraction loop of heapSort_func (i from hi-1 down to 0). -/
def heapSortExtract (less : α → α → Bool) (first : Nat) :
    Nat → List α → Nat → List α
  | 0, l, _ => l
  | fuel+1, l, i =>
    let l := swapD l first (first+i)
    let l := siftDownGo less i first fuel l 0
    if i = 0 then l else heapSortExtract less first fuel l (i-1)

/-- heapSort_func from Go sort (only reached when the depth limit hits 0). -/
def heapSortGo (less : α → α → Bool) (a b fuel : Nat) (l : List α) : List α :=
  let first := a
  let hi := b - a
  let l := heapSortBuild less hi first fuel l ((hi-1)/2)
  heapSortExtract less first fuel l (hi-1)

/-- xorshift random step used by breakPatterns (uint64 arithmetic). -/
def xorshiftNext (r : Nat) : Nat :=
  let m := 2^64
  let r := (r ^^^ ((r <<< 13) % m)) % m
  let r := r ^^^ (r >>> 7)
  (r ^^^ ((r <<< 17) % m)) % m

/-- One of the three swaps of breakPatterns_func; returns the slice and the
advanced random state. -/
def breakPatternsStep (l : List α) (a length idx modulus r i : Nat) :
    List α × Nat :=
  let r := xorshiftNext r
  let other := Nat.land r (modulus - 1)
  let other := if decide (length ≤ other) then other - length else other
  (swapD l (idx - 1 + i) (a + other), r)

/-- breakPatterns_func from Go sort. -/
def breakPatternsGo (a b : Nat) (l : List α) : List α :=
  let length := b - a
  if decide (8 ≤ length) then
    let modulus := 2 ^ bitsLen length
    let idx := a + (length/4)*2 - 1
    let s0 := breakPatternsStep l a length idx modulus length 0
    let s1 := breakPatternsStep s0.1 a length idx modulus s0.2 1
    (breakPatternsStep s1.1 a length idx modulus s1.2 2).1
  else l

/-- Hint returned by choosePivot_func. -/
inductive SortedHint where
  | increasing
  | decreasing
  | unknown
deriving DecidableEq, Repr

/-- order2_func: orders two indices by the data, counting comparisons that
were out of order. -/
def order2Go (less : α → α → Bool) (l : List α) (a b swaps : Nat) :
    Nat × Nat × Nat :=
  if lessAt less l b a then (b, a, swaps+1) else (a, b, swaps)

/-- median_func: index of the median of three data elements. -/
def medianGo (less : α → α → Bool) (l : List α) (a b c swaps : Nat) :
    Nat × Nat :=
  let (a, b, swaps) := order2Go less l a b swaps
  let (b, _, swaps) := order2Go less l b c swaps
  let (_, b, swaps) := order2Go less l a b swaps
  (b, swaps)

/-- medianAdjacent_func: median of i-1, i, i+1. -/
def medianAdjacentGo (less : α → α → Bool) (l : List α) (a swaps : Nat) :
    Nat × Nat :=
  medianGo less l (a-1) a (a+1) swaps

/-- choosePivot_func from Go sort (ninther for length at least 50). -/
def choosePivotGo (less : α → α → Bool) (l : List α) (a b : Nat) :
    Nat × SortedHint :=
  let len := b - a
  let iIdx := a + len/4*1
  let jIdx := a + len/4*2
  let kIdx := a + len/4*3
  let (jIdx, swaps) :=
    if decide (8 ≤ len) then
      let (iIdx, jIdx, kIdx, swaps) :=
        if decide (50 ≤ len) then
          let (iIdx, s) := medianAdjacentGo less l iIdx 0
          let (jIdx, s) := medianAdjacentGo less l jIdx s
          let (kIdx, s) := medianAdjacentGo less l kIdx s
          (iIdx, jIdx, kIdx, s)
        else (iIdx, jIdx, kIdx, 0)
      medianGo less l iIdx jIdx kIdx swaps
    else (jIdx, 0)
  if swaps = 0 then (jIdx, SortedHint.increasing)
  else if swaps = 12 then (jIdx, SortedHint.decreasing)
  else (jIdx, SortedHint.unknown)

/-- reverseRange_func loop. -/
def reverseRangeLoop : Nat → List α → Nat → Nat → List α
  | 0, l, _, _ => l
  | fuel+1, l, i, j =>
    if decide (i < j) then reverseRangeLoop fuel (swapD l i j) (i+1) (j-1)
    else l

/-- reverseRange_func from Go sort. -/
def reverseRangeGo (a b fuel : Nat) (l : List α) : List α :=
  reverseRangeLoop fuel l a (b-1)

/-- Advance of i in partialInsertionSort_func (no mutation). -/
def piAdvance (less : α → α → Bool) (b : Nat) : Nat → List α → Nat → Nat
  | 0, _, i => i
  | fuel+1, l, i =>
    if decide (i < b) && !(lessAt less l i (i-1)) then
      piAdvance less b fuel l (i+1)
    else i

/-- Left shift loop of partialInsertionSort_func. -/
def piShiftLeft (less : α → α → Bool) : Nat → List α → Nat → List α
  | 0, l, _ => l
  | fuel+1, l, j =>
    if decide (1 ≤ j) then
      if !(lessAt less l j (j-1)) then l
      else piShiftLeft less fuel (swapD l j (j-1)) (j-1)
    else l

/-- Right shift loop of partialInsertionSort_func. -/
def piShiftRight (less : α → α → Bool) (b : Nat) : Nat → List α → Nat → List α
  | 0, l, _ => l
  | fuel+1, l, j =>
    if decide (j < b) then
      if !(lessAt less l j (j-1)) then l
      else piShiftRight less b fuel (swapD l j (j-1)) (j+1)
    else l

/-- The maxSteps-bounded body of partialInsertionSort_func; the Bool result
is true when the range was detected as already sorted. -/
def partialInsertionSortSteps (less : α → α → Bool) (a b fuel : Nat) :
    Nat → List α → Nat → Bool × List α
  | 0, l, _ => (false, l)
  | steps+1, l, i =>
    let i := piAdvance less b fuel l i
    if decide (i = b) then (true, l)
    else if decide (b - a < 50) then (false, l)
    else
      let l := swapD l i (i-1)
      let l := if decide (2 ≤ i - a) then piShiftLeft less fuel l (i-1) else l
      let l := if decide (2 ≤ b - i) then piShiftRight less b fuel l (i+1) else l
      partialInsertionSortSteps less a b fuel steps l i

/-- partialInsertionSort_func from Go sort (maxSteps = 5). -/
def partialInsertionSortGo (less : α → α → Bool) (a b fuel : Nat)
    (l : List α) : Bool × List α :=
  partialInsertionSortSteps less a b fuel 5 l (a+1)

/-- Scan of i in partitionEqual_func. -/
def peScanI (less : α → α → Bool) (l : List α) (a : Nat) :
    Nat → Nat → Nat → Nat
  | 0, i, _ => i
  | fuel+1, i, j =>
    if decide (i ≤ j) && !(lessAt less l a i) then peScanI less l a fuel (i+1) j
    else i

/-- Scan of j in partitionEqual_func. -/
def peScanJ (less : α → α → Bool) (l : List α) (a : Nat) :
    Nat → Nat → Nat → Nat
  | 0, _, j => j
  | fuel+1, i, j =>
    if decide (i ≤ j) && lessAt less l a j then peScanJ less l a fuel i (j-1)
    else j

/-- Main loop of partitionEqual_func; returns the final i and the slice. -/
def partitionEqualLoop (less : α → α → Bool) (a : Nat) :
    Nat → List α → Nat → Nat → Nat × List α
  | 0, l, i, _ => (i, l)
  | fuel+1, l, i, j =>
    let i := peScanI less l a fuel i j
    let j := peScanJ less l a fuel i j
    if decide (j < i) then (i, l)
    else partitionEqualLoop less a fuel (swapD l i j) (i+1) (j-1)

/-- partitionEqual_func from Go sort. -/
def partitionEqualGo (less : α → α → Bool) (a b pivot fuel : Nat)
    (l : List α) : Nat × List α :=
  let l := swapD l a pivot
  partitionEqualLoop less a fuel l (a+1) (b-1)

/-- Scan of i in partition_func. -/
def ptScanI (less : α → α → Bool) (l : List α) (a : Nat) :
    Nat → Nat → Nat → Nat
  | 0, i, _ => i
  | fuel+1, i, j =>
    if decide (i ≤ j) && lessAt less l i a then ptScanI less l a fuel (i+1) j
    else i

/-- Scan of j in partition_func. -/
def ptScanJ (less : α → α → Bool) (l : List α) (a : Nat) :
    Nat → Nat → Nat → Nat
  | 0, _, j => j
  | fuel+1, i, j =>
    if decide (i ≤ j) && !(lessAt less l j a) then ptScanJ less l a fuel i (j-1)
    else j

/-- Main loop of partition_func; returns the final j and the slice. -/
def partitionLoop (less : α → α → Bool) (a : Nat) :
    Nat → List α → Nat → Nat → Nat × List α
  | 0, l, _, j => (j, l)
  | fuel+1, l, i, j =>
    let i := ptScanI less l a fuel i j
    let j := ptScanJ less l a fuel i j
    if decide (j < i) then (j, l)
    else partitionLoop less a fuel (swapD l i j) (i+1) (j-1)

/-- partition_func from Go sort; returns the pivot position, the
alreadyPartitioned flag and the slice. -/
def partitionGo (less : α → α → Bool) (a b pivot fuel : Nat) (l : List α) :
    Nat × Bool × List α :=
  let l := swapD l a pivot
  let i := a + 1
  let j := b - 1
  let i := ptScanI less l a fuel i j
  let j := ptScanJ less l a fuel i j
  if decide (j < i) then
    (j, true, swapD l j a)
  else
    let l := swapD l i j
    let r := partitionLoop less a fuel l (i+1) (j-1)
    (r.1, false, swapD r.2 r.1 a)

/-- The if !wasBalanced step of pdqsort_func: break patterns and spend one
unit of the depth limit. -/
def pdqBreakStep (wasBalanced : Bool) (a b limit : Nat) (l : List α) :
    List α × Nat :=
  if !wasBalanced then (breakPatternsGo a b l, limit - 1) else (l, limit)

/-- The choosePivot step of pdqsort_func together with the reversal of a
decreasing slice; returns the slice, the pivot and the adjusted hint. -/
def pdqPivotStep (less : α → α → Bool) (fuel a b : Nat) (l : List α) :
    List α × Nat × SortedHint :=
  let cp := choosePivotGo less l a b
  if cp.2 = SortedHint.decreasing then
    (reverseRangeGo a b fuel l, (b-1) - (cp.1 - a), SortedHint.increasing)
  else (l, cp.1, cp.2)

/-- The partialInsertionSort step of pdqsort_func, guarded by the
wasBalanced/wasPartitioned/increasing test. -/
def pdqPartialStep (less : α → α → Bool) (guard : Bool) (a b fuel : Nat)
    (l : List α) : Bool × List α :=
  if guard then partialInsertionSortGo less a b fuel l else (false, l)

/-- pdqsort_func from Go sort.  The Go for-loop with continue is the
recursion on fuel; a fresh recursive Go call starts with both flags true. -/
def pdqsortGo (less : α → α → Bool) :
    Nat → List α → Nat → Nat → Nat → Bool → Bool → List α
  | 0, l, _, _, _, _, _ => l
  | fuel+1, l, a, b, limit, wasBalanced, wasPartitioned =>
    let length := b - a
    if decide (length ≤ 12) then insertionSortGo less a b fuel l
    else if decide (limit = 0) then heapSortGo less a b fuel l
    else
      let bp := pdqBreakStep wasBalanced a b limit l
      let rv := pdqPivotStep less fuel a b bp.1
      let ps := pdqPartialStep less
        (wasBalanced && wasPartitioned && decide (rv.2.2 = SortedHint.increasing))
        a b fuel rv.1
      if ps.1 then ps.2
      else if decide (0 < a) && !(lessAt less ps.2 (a-1) rv.2.1) then
        let pe := partitionEqualGo less a b rv.2.1 fuel ps.2
        pdqsortGo less fuel pe.2 pe.1 b bp.2 wasBalanced wasPartitioned
      else
        let pt := partitionGo less a b rv.2.1 fuel ps.2
        let leftLen := pt.1 - a
        let rightLen := b - pt.1
        let balanceThreshold := length / 8
        let newBalanced := decide (balanceThreshold ≤ min leftLen rightLen)
        if decide (leftLen < rightLen) then
          let l2 := pdqsortGo less fuel pt.2.2 a pt.1 bp.2 true true
          pdqsortGo less fuel l2 (pt.1+1) b bp.2 newBalanced pt.2.1
        else
          let l2 := pdqsortGo less fuel pt.2.2 (pt.1+1) b bp.2 true true
          pdqsortGo less fuel l2 a pt.1 bp.2 newBalanced pt.2.1

/-- sort.Slice with a given fuel: limit = bits.Len(uint(length)). -/
def sortSliceF (less : α → α → Bool) (fuel : Nat) (l : List α) : List α :=
  pdqsortGo less fuel l 0 l.length (bitsLen l.length) true true

/-- sort.Slice; the default fuel strictly dominates every loop bound of the
algorithm on a slice of this length. -/
def sortSlice (less : α → α → Bool) (l : List α) : List α :=
  sortSliceF less (l.length * l.length + l.length + 64) l

end GoSort

/-! ## Scoring and re-sorting of the host config (base_host_availabler.go) -/

/-- Assignment to a Go map: replace the entry if the key is present, else
append it. -/
def mapSet {β : Type _} : List (String × β) → String → β → List (String × β)
  | [], k, v => [(k, v)]
  | (k2, v2) :: rest, k, v =>
    if k2 = k then (k, v) :: rest else (k2, v2) :: mapSet rest k v

/-- The hostScoreIndex map built at the top of copyAndSortHost. -/
def buildScoreIndex (scores : List (String × ℚ)) : List (String × ℚ) :=
  scores.foldl (fun m p => mapSet m p.1 p.2) []

/-- Go map read with the float64 zero value for a missing host. -/
def scoreGetD (idx : List (String × ℚ)) (h : String) : ℚ :=
  (List.lookup h idx).getD 0

/-- The less closure passed to sort.Slice in copyAndSortHost:
hostScoreIndex[newHosts[i]] > hostScoreIndex[newHosts[j]]. -/
def hostLess (idx : List (String × ℚ)) (h1 h2 : String) : Bool :=
  decide (scoreGetD idx h2 < scoreGetD idx h1)

/-- HostAvailablerBase.copyAndSortHost: copy each path's host slice and sort
it with sort.Slice by descending score. -/
def copyAndSortHost (hostConfig : HostConfig) (newHostScores : List (String × ℚ)) :
    HostConfig :=
  let hostScoreIndex := buildScoreIndex newHostScores
  hostConfig.map (fun p => (p.1, sortSlice (hostLess hostScoreIndex) p.2))

/-- One step of the de-duplicating accumulation in distinctHosts; the
result list doubles as the hostMap membership set. -/
def dedupAppend (acc : List String) (host : String) : List String :=
  if acc.contains host then acc else acc ++ [host]

/-- HostAvailablerBase.distinctHosts: de-duplicated union of all hosts of
the config in first-occurrence order. -/
def distinctHosts (hostConfig : HostConfig) : List String :=
  hostConfig.foldl (fun acc p => p.2.foldl dedupAppend acc) []

/-- HostAvailablerBase.isEqualHosts: same length and element-wise equal. -/
def isEqualHosts (hostsA hostsB : List String) : Bool :=
  if hostsA.length ≠ hostsB.length then false
  else (List.zip hostsA hostsB).all fun p => p.1 == p.2

/-- HostAvailablerBase.isHostConfigNotUpdated.  The Go nil-map branches
concern only an uninitialized config field and are unreachable in the
modelled flows; a path missing from the new config is read as the Go zero
value, the empty slice. -/
def isHostConfigNotUpdated (oldHostConfig newHostConfig : HostConfig) : Bool :=
  if oldHostConfig.length ≠ newHostConfig.length then false
  else oldHostConfig.all fun p =>
    isEqualHosts p.2 ((cfgLookup newHostConfig p.1).getD [])

/-- HostAvailablerBase.containsAll: every element of hosts2 occurs in
hosts. -/
def containsAll (hosts hosts2 : List String) : Bool :=
  hosts2.all fun host => hosts.contains host

/-- HostAvailablerBase.isServerHostsNotUpdated: the fetched config has the
same number of paths, every fetched path exists with a host list of the
same length whose elements all occur in the fetched list. -/
def isServerHostsNotUpdated (current newHostConfig : HostConfig) : Bool :=
  if newHostConfig.length ≠ current.length then false
  else newHostConfig.all fun p =>
    match cfgLookup current p.1 with
    | none => false
    | some oldHosts =>
      if oldHosts.length ≠ p.2.length then false
      else containsAll p.2 oldHosts

/-- HostAvailablerBase.doScoreAndUpdateHosts as a state transformer on the
stored hostConfig field: score the distinct hosts of the argument config
(ScoreHosts of the HostScorer interface is the scoreHosts parameter), keep
the stored config on an empty score list, re-sort, and replace the stored
config only when the order changed. -/
def doScoreAndUpdateHosts (scoreHosts : List String → List (String × ℚ))
    (stored hostConfig : HostConfig) : HostConfig :=
  let hosts := distinctHosts hostConfig
  let newHostScores := scoreHosts hosts
  if newHostScores.length = 0 then stored
  else
    let newHostConfig := copyAndSortHost hostConfig newHostScores
    if isHostConfigNotUpdated stored newHostConfig then stored
    else newHostConfig

/-- One fetchHostsFromServer pass (base_host_availabler.go): up to three
attempts, each either a transport-level failure (none, which retries) or a
decoded response config.  A response is final: it is dropped when the host
sets did not change or when its wildcard entry is missing or empty,
otherwise it is scored and applied.  Exhausted attempts keep the stored
config. -/
def fetchHostsPass (scoreHosts : List String → List (String × ℚ))
    (stored : HostConfig) : List (Option HostConfig) → HostConfig
  | [] => stored
  | none :: rest => fetchHostsPass scoreHosts stored rest
  | some rspHostConfig :: _ =>
    if isServerHostsNotUpdated stored rspHostConfig then stored
    else
      match cfgLookup rspHostConfig "*" with
      | none => stored
      | some hosts =>
        if hosts.length = 0 then stored
        else doScoreAndUpdateHosts scoreHosts stored rspHostConfig

/-! ## Ping scorer (ping_host_availabler.go ScoreHosts) -/

/-- pingHostAvailabler.ScoreHosts: a single host is not probed and scores
zero; otherwise every host is probed into its window (created at the
configured size on first sight) and scored 1 - failureRate.  The ping
argument is the outcome of doPing for each host in this pass.  The reads
of hostWindowMap after the fill loop always hit (getD supplies an unused
default). -/
def ScoreHosts (windowSize : Nat) (ping : String → Bool)
    (hostWindowMap : List (String × Window)) (hosts : List String) :
    List (String × ℚ) × List (String × Window) :=
  if hosts.length = 1 then
    ([(hosts.headD "", 0)], hostWindowMap)
  else
    let wm := hosts.foldl (fun wm host =>
      let w := (List.lookup host wm).getD (newWindow windowSize)
      mapSet wm host (w.put (ping host))) hostWindowMap
    (hosts.map (fun host =>
      (host, 1 - ((List.lookup host wm).getD (newWindow windowSize)).failureRate)),
     wm)

/-! ## Shutdown and the stop channel (base_host_availabler.go) -/

/-- Run-time state of the Go stop channel. -/
inductive ChanState where
  | nilChan
  | openChan
  | closedChan
deriving DecidableEq, Repr

/-- Go close(ch): closing a nil or an already closed channel panics
(Go language specification); the panic message is the error value. -/
def closeChan : ChanState → Except String ChanState
  | ChanState.nilChan => Except.error "close of nil channel"
  | ChanState.openChan => Except.ok ChanState.closedChan
  | ChanState.closedChan => Except.error "close of closed channel"

/-- HostAvailablerBase.Shutdown: close the stop channel when it is not
nil.  Init left the channel open (a.stop = make(chan bool)). -/
def Shutdown (stop : ChanState) : Except String ChanState :=
  match stop with
  | ChanState.nilChan => Except.ok ChanState.nilChan
  | s => closeChan s

/-! ## Metrics event queues (collector.EmitMetric / collector.EmitLog) -/

/-- A Go buffered channel of fixed capacity together with its contents. -/
structure EventQueue (ε : Type _) where
  cap : Nat
  buffer : List ε

/-- The channel as created by doInit: empty at the configured capacity. -/
def mkEventQueue (ε : Type _) (cap : Nat) : EventQueue ε :=
  { cap := cap, buffer := [] }

/-- collector.EmitMetric / collector.EmitLog as seen at the queue: a
disabled collector returns at once; a collector stuck cleaning past
maxSpinTimes drops the event; otherwise the non-blocking select enqueues
the built event when the channel has room and takes the default branch
(drop) otherwise. -/
def Emit {ε : Type _} (enabled cleaning : Bool) (q : EventQueue ε)
    (event : ε) : EventQueue ε :=
  if !enabled then q
  else if cleaning then q
  else if q.buffer.length < q.cap then { cap := q.cap, buffer := q.buffer ++ [event] }
  else q

/-- A whole sequence of Emit calls, each with its own enabled/cleaning
flags. -/
def emitAll {ε : Type _} (q : EventQueue ε) (events : List (Bool × Bool × ε)) :
    EventQueue ε :=
  events.foldl (fun q e => Emit e.1 e.2.1 q e.2.2) q

/-! ## HTTP caller error classification (httpCaller.doHTTPRequest) -/

/-- Go strings prefix test on character lists. -/
def charsStart : List Char → List Char → Bool
  | [], _ => true
  | _ :: _, [] => false
  | c :: cs, d :: ds => c == d && charsStart cs ds

/-- Go strings.Contains on character lists. -/
def charsContain (pat : List Char) : List Char → Bool
  | [] => pat.isEmpty
  | d :: ds => charsStart pat (d :: ds) || charsContain pat ds

/-- strings.Contains(s, substr). -/
def strContains (s sub : String) : Bool :=
  charsContain sub.data s.data

/-- ASCII lowering of one character (the strings this code lowers are
ASCII, where Go strings.ToLower agrees). -/
def charToLower (c : Char) : Char :=
  if 65 ≤ c.toNat ∧ c.toNat ≤ 90 then Char.ofNat (c.toNat + 32) else c

/-- strings.ToLower. -/
def strToLower (s : String) : String :=
  String.mk (s.data.map charToLower)

/-- The UTF-8 bytes of a Go string. -/
def strBytes (s : String) : List UInt8 :=
  s.data.flatMap String.utf8EncodeChar

/-- The netErrMark sentinel of host_availabler_factory.go. -/
def netErrMark : String := "[netErr]"

/-- utils.go IsNetError: nil is no net error, otherwise the error text must
contain the sentinel mark. -/
def IsNetError : Option String → Bool
  | none => false
  | some msg => strContains msg netErrMark

/-- utils.go IsTimeoutError on the text of a non-nil error. -/
def IsTimeoutError (msg : String) : Bool :=
  strContains (strToLower msg) "timeout"

/-- Outcome data of a fasthttp response as far as doHTTPRequest reads it. -/
structure HTTPResponse where
  statusCode : Nat
  contentEncoding : String
  body : String
  gunzipOk : Bool
  gunzipBody : String
  gunzipErrText : String

/-- decompressResponse from host_availabler_factory.go. -/
def decompressResponse (response : HTTPResponse) : Except String String :=
  let contentEncoding := strToLower response.contentEncoding.trim
  if contentEncoding = "gzip" then
    if response.gunzipOk then Except.ok response.gunzipBody
    else Except.error response.gunzipErrText
  else if contentEncoding = "" then Except.ok response.body
  else Except.error ("unsupported resp content encoding:" ++ contentEncoding)

/-- httpCaller.doHTTPRequest from the DoTimeout call on: classification of
the exchange outcome (request building, signing, metrics and logging do
not affect the returned value).  The exchange argument is the DoTimeout
result: a transport error text or a response. -/
def doHTTPRequest (exchange : Except String HTTPResponse) : Except String String :=
  match exchange with
  | Except.error err =>
    if strContains (strToLower err) "timeout" then
      Except.error (netErrMark ++ " timeout")
    else
      Except.error err
  | Except.ok response =>
    if response.statusCode ≠ 200 then
      Except.error (netErrMark ++ "http status not 200")
    else decompressResponse response

/-! ## Request signer (auth.go)

The crypto primitives (crypto/sha256, crypto/hmac, encoding/hex) are
library code outside this repository and enter the signature only as
deterministic functions, so they are a parameter structure; byte strings
are modelled as Lean strings.  Everything else follows auth.go. -/

/-- The credential struct of auth.go. -/
structure Credential where
  accessKeyID : String
  secretAccessKey : String
  region : String
  service : String
  sessionToken : String

/-- Abstract deterministic model of hashSHA256 (hex output), hmacSHA256
(raw mac bytes) and hex.EncodeToString. -/
structure CryptoModel where
  sha256Hex : String → String
  hmacBytes : String → String → String
  hexStr : String → String

/-- The parts of a fasthttp request that sign reads or writes.  Header keys
are case-insensitive in fasthttp; the model stores them lower-cased with
unique keys. -/
structure SignRequest where
  method : String
  path : String
  host : String
  queryArgs : List (String × String)
  headers : List (String × String)
  body : String

/-- req.Header.Set. -/
def headerSet (headers : List (String × String)) (k v : String) :
    List (String × String) :=
  mapSet headers (strToLower k) v

/-- req.Header.Peek; none models a nil byte slice. -/
def headerPeek (headers : List (String × String)) (k : String) : Option String :=
  List.lookup (strToLower k) headers

/-- The pattern in prepareRequestV4: set a default when the header is
missing or empty (len(Peek) == 0). -/
def setIfAbsent (headers : List (String × String)) (k v : String) :
    List (String × String) :=
  match headerPeek headers k with
  | none => headerSet headers k v
  | some old => if old = "" then headerSet headers k v else headers

/-- prepareRequestV4 from auth.go; nowTs is the formatted now().  The Go
map of the two defaults is iterated in unspecified order, the keys are
independent so the order is immaterial. -/
def prepareRequestV4 (nowTs : String) (req : SignRequest) : SignRequest :=
  let headers := setIfAbsent req.headers "Content-Type"
    "application/x-www-form-urlencoded; charset=utf-8"
  let headers := setIfAbsent headers "X-Date" nowTs
  let path := if req.path = "" then "/" else req.path
  { req with headers := headers, path := path }

/-- escapeStandardStr from auth.go. -/
def escapeStandardStr : String := "0123456789ABCDEF"

/-- Digit lookup in escapeStandardStr (index is always below 16). -/
def hexDigit (n : Nat) : Char :=
  escapeStandardStr.data.getD n '0'

/-- needEscape from auth.go, on a byte. -/
def needEscape (c : UInt8) : Bool :=
  let n := c.toNat
  if (97 ≤ n ∧ n ≤ 122) ∨ (65 ≤ n ∧ n ≤ 90) then false
  else if 48 ≤ n ∧ n ≤ 57 then false
  else if n = 45 ∨ n = 95 ∨ n = 46 ∨ n = 126 then false
  else true

/-- encodePathPart from auth.go, over the UTF-8 bytes of the part. -/
def encodePathPart (pathPart : String) : String :=
  String.mk ((strBytes pathPart).foldl (fun acc c =>
    if needEscape c then
      acc ++ ['%', hexDigit (c.toNat >>> 4), hexDigit (c.toNat &&& 15)]
    else acc ++ [Char.ofNat c.toNat]) [])

/-- normURI from auth.go. -/
def normURI (uri : String) : String :=
  String.intercalate "/" ((uri.splitOn "/").map encodePathPart)

/-- Go url.QueryEscape escape predicate: unreserved bytes stay. -/
def queryShouldEscape (c : UInt8) : Bool :=
  let n := c.toNat
  if (97 ≤ n ∧ n ≤ 122) ∨ (65 ≤ n ∧ n ≤ 90) ∨ (48 ≤ n ∧ n ≤ 57) then false
  else if n = 45 ∨ n = 95 ∨ n = 46 ∨ n = 126 then false
  else true

/-- Go url.QueryEscape: space to plus, unreserved bytes verbatim, all else
percent-encoded upper-case. -/
def queryEscape (s : String) : String :=
  String.mk ((strBytes s).foldl (fun acc c =>
    if c.toNat = 32 then acc ++ ['+']
    else if queryShouldEscape c then
      acc ++ ['%', hexDigit (c.toNat >>> 4), hexDigit (c.toNat &&& 15)]
    else acc ++ [Char.ofNat c.toNat]) [])

/-- Ascending sort of strings (Go sort.Strings).  The sorted keys here are
always distinct, so every correct sort yields the same list and a merge
sort models sort.Strings exactly. -/
def sortStrings (l : List String) : List String :=
  l.mergeSort (fun a b => decide (a ≤ b))

/-- Go url.Values.Encode on the values built by the QueryArgs VisitAll
loop: keys sorted, values of one key kept in insertion order, every part
query-escaped. -/
def urlValuesEncode (args : List (String × String)) : String :=
  let keys := sortStrings ((args.map Prod.fst).foldl dedupAppend [])
  String.intercalate "&" (List.flatten (keys.map fun k =>
    (args.filter (fun p => p.1 == k)).map fun p =>
      queryEscape k ++ "=" ++ queryEscape p.2))

/-- normQuery from auth.go. -/
def normQuery (queryString : String) : String :=
  queryString.replace "+" "%20"

/-- The header subset that hashedCanonicalRequestV4 signs: the three fixed
names and every name prefixed x- (strings.HasPrefix on the characters). -/
def signedHeaderKey (key : String) : Bool :=
  key == "content-type" || key == "content-md5" || key == "host" ||
    charsStart "x-".data key.data

/-- Default-port stripping of the host header value in
hashedCanonicalRequestV4. -/
def stripDefaultPort (value : String) : String :=
  if strContains value ":" then
    let split := value.splitOn ":"
    let port := split.getD 1 ""
    if port = "80" ∨ port = "443" then split.headD "" else value
  else value

/-- hashedCanonicalRequestV4 from auth.go: returns the hashed canonical
request, meta.signedHeaders, and the request with the two header writes
(X-Content-Sha256 and Host). -/
def hashedCanonicalRequestV4 (crypto : CryptoModel) (req : SignRequest) :
    String × String × SignRequest :=
  let payloadHash := crypto.sha256Hex req.body
  let headers := headerSet req.headers "X-Content-Sha256" payloadHash
  let headers := headerSet headers "Host" req.host
  let sortedHeaderKeys := sortStrings ((headers.map Prod.fst).filter signedHeaderKey)
  let headersToSign := String.join (sortedHeaderKeys.map fun key =>
    let value := ((headerPeek headers key).getD "").trim
    let value := if key = "host" then stripDefaultPort value else value
    key ++ ":" ++ value ++ "\n")
  let signedHeaders := String.intercalate ";" sortedHeaderKeys
  let canonicalRequest := String.intercalate "\n"
    [req.method, normURI req.path, normQuery (urlValuesEncode req.queryArgs),
     headersToSign, signedHeaders, payloadHash]
  (crypto.sha256Hex canonicalRequest, signedHeaders,
   { req with headers := headers })

/-- tsDate from auth.go (timestamp[:8]; every produced timestamp has at
least eight bytes). -/
def tsDate (timestamp : String) : String := timestamp.take 8

/-- stringToSign from auth.go: returns the string to sign, the credential
scope and meta.date. -/
def stringToSign (headers : List (String × String))
    (hashedCanonReq region service : String) : String × String × String :=
  let requestTs := (headerPeek headers "X-Date").getD ""
  let date := tsDate requestTs
  let credentialScope := String.intercalate "/" [date, region, service, "request"]
  (String.intercalate "\n" ["HMAC-SHA256", requestTs, credentialScope, hashedCanonReq],
   credentialScope, date)

/-- signingKey from auth.go. -/
def signingKey (crypto : CryptoModel) (secretKey date region service : String) :
    String :=
  crypto.hmacBytes
    (crypto.hmacBytes (crypto.hmacBytes (crypto.hmacBytes secretKey date) region)
      service) "request"

/-- signature from auth.go. -/
def signature (crypto : CryptoModel) (key stringToSignRet : String) : String :=
  crypto.hexStr (crypto.hmacBytes key stringToSignRet)

/-- buildAuthHeader from auth.go. -/
def buildAuthHeader (sig credentialScope signedHeaders : String)
    (keys : Credential) : String :=
  "HMAC-SHA256" ++ " Credential=" ++ (keys.accessKeyID ++ "/" ++ credentialScope) ++
    ", SignedHeaders=" ++ signedHeaders ++ ", Signature=" ++ sig

/-- sign from auth.go. -/
def sign (crypto : CryptoModel) (nowTs : String) (req : SignRequest)
    (cred : Credential) : SignRequest :=
  let req := prepareRequestV4 nowTs req
  let hres := hashedCanonicalRequestV4 crypto req
  let req := hres.2.2
  let sts := stringToSign req.headers hres.1 cred.region cred.service
  let signingKeyRet := signingKey crypto cred.secretAccessKey sts.2.2 cred.region
    cred.service
  let signatureRet := signature crypto signingKeyRet sts.1
  let headers := headerSet req.headers "Authorization"
    (buildAuthHeader signatureRet sts.2.1 hres.2.1 cred)
  let headers :=
    if cred.sessionToken ≠ "" then
      headerSet headers "X-Security-Token" cred.sessionToken
    else headers
  { req with headers := headers }

/-- The Authorization header value of a request. -/
def authorizationOf (req : SignRequest) : Option String :=
  headerPeek req.headers "Authorization"

/-- The signed projection of a header map: the subset of entries whose key
hashedCanonicalRequestV4 includes in the canonical headers. -/
def filterSigned (headers : List (String × String)) : List (String × String) :=
  headers.filter fun p => signedHeaderKey p.1

/-- Invariant of the header model: fasthttp stores header names
case-insensitively, which the model realizes by keeping keys lower-cased
(every write goes through headerSet). -/
def keysNormalized (headers : List (String × String)) : Prop :=
  ∀ p ∈ headers, strToLower p.1 = p.1

/-! ## Permutation lemmas for the embedded sort -/

section GoSortPerm

variable {α : Type _} [Inhabited α]

theorem get_cons_set_perm :
    ∀ (t : List α) (m : Nat) (h : m < t.length) (x : α),
      (t.get ⟨m, h⟩ :: t.set m x).Perm (x :: t)
  | a :: t, 0, _, x => List.Perm.swap x a t
  | a :: t, m+1, h, x => by
    have hm : m < t.length := by simpa using h
    have ih := get_cons_set_perm t m hm x
    have s1 : (t.get ⟨m, hm⟩ :: a :: t.set m x).Perm
        (a :: t.get ⟨m, hm⟩ :: t.set m x) :=
      List.Perm.swap a (t.get ⟨m, hm⟩) (t.set m x)
    exact s1.trans ((ih.cons a).trans (List.Perm.swap x a t))

theorem set_get_set_perm :
    ∀ (l : List α) (i j : Nat) (hi : i < l.length) (hj : j < l.length),
      ((l.set i (l.get ⟨j, hj⟩)).set j (l.get ⟨i, hi⟩)).Perm l
  | a :: t, 0, 0, _, _ => by simp
  | a :: t, 0, j+1, hi, hj => by
    simpa using get_cons_set_perm t j (by simpa using hj) a
  | a :: t, i+1, 0, hi, hj => by
    simpa using get_cons_set_perm t i (by simpa using hi) a
  | a :: t, i+1, j+1, hi, hj => by
    simpa using (set_get_set_perm t i j (by simpa using hi) (by simpa using hj)).cons a

theorem swapD_perm (l : List α) (i j : Nat) : (swapD l i j).Perm l := by
  unfold swapD
  split
  next h => exact set_get_set_perm l i j h.1 h.2
  next => exact List.Perm.refl l

theorem insertionSortInner_perm (less : α → α → Bool) (a : Nat) :
    ∀ (fuel : Nat) (l : List α) (j : Nat),
      (insertionSortInner less a fuel l j).Perm l
  | 0, l, _ => List.Perm.refl l
  | fuel+1, l, j => by
    unfold insertionSortInner
    split
    · exact (insertionSortInner_perm less a fuel _ _).trans (swapD_perm l _ _)
    · exact List.Perm.refl l

theorem insertionSortOuter_perm (less : α → α → Bool) (a b : Nat) :
    ∀ (fuel : Nat) (l : List α) (i : Nat),
      (insertionSortOuter less a b fuel l i).Perm l
  | 0, l, _ => List.Perm.refl l
  | fuel+1, l, i => by
    unfold insertionSortOuter
    split
    · exact (insertionSortOuter_perm less a b fuel _ _).trans
        (insertionSortInner_perm less a fuel l i)
    · exact List.Perm.refl l

theorem insertionSortGo_perm (less : α → α → Bool) (a b fuel : Nat)
    (l : List α) : (insertionSortGo less a b fuel l).Perm l :=
  insertionSortOuter_perm less a b fuel l (a+1)

theorem siftDownGo_perm (less : α → α → Bool) (hi first : Nat) :
    ∀ (fuel : Nat) (l : List α) (root : Nat),
      (siftDownGo less hi first fuel l root).Perm l
  | 0, l, _ => List.Perm.refl l
  | fuel+1, l, root => by
    unfold siftDownGo
    simp only []
    split
    · exact List.Perm.refl l
    · split <;> split
      all_goals
        first
          | exact List.Perm.refl l
          | exact (siftDownGo_perm less hi first fuel _ _).trans (swapD_perm l _ _)

theorem heapSortBuild_perm (less : α → α → Bool) (hi first : Nat) :
    ∀ (fuel : Nat) (l : List α) (i : Nat),
      (heapSortBuild less hi first fuel l i).Perm l
  | 0, l, _ => List.Perm.refl l
  | fuel+1, l, i => by
    unfold heapSortBuild
    simp only []
    split
    · exact siftDownGo_perm less hi first fuel l i
    · exact (heapSortBuild_perm less hi first fuel _ _).trans
        (siftDownGo_perm less hi first fuel l i)

theorem heapSortExtract_perm (less : α → α → Bool) (first : Nat) :
    ∀ (fuel : Nat) (l : List α) (i : Nat),
      (heapSortExtract less first fuel l i).Perm l
  | 0, l, _ => List.Perm.refl l
  | fuel+1, l, i => by
    unfold heapSortExtract
    simp only []
    split
    · exact (siftDownGo_perm less i first fuel _ _).trans (swapD_perm l _ _)
    · exact (heapSortExtract_perm less first fuel _ _).trans
        ((siftDownGo_perm less i first fuel _ _).trans (swapD_perm l _ _))

theorem heapSortGo_perm (less : α → α → Bool) (a b fuel : Nat) (l : List α) :
    (heapSortGo less a b fuel l).Perm l :=
  (heapSortExtract_perm less a fuel _ _).trans
    (heapSortBuild_perm less (b-a) a fuel l _)

theorem breakPatternsStep_perm (l : List α) (a length idx modulus r i : Nat) :
    (breakPatternsStep l a length idx modulus r i).1.Perm l :=
  swapD_perm l _ _

theorem breakPatternsGo_perm (a b : Nat) (l : List α) :
    (breakPatternsGo a b l).Perm l := by
  unfold breakPatternsGo
  simp only []
  split
  · exact (breakPatternsStep_perm _ _ _ _ _ _ _).trans
      ((breakPatternsStep_perm _ _ _ _ _ _ _).trans
        (breakPatternsStep_perm _ _ _ _ _ _ _))
  · exact List.Perm.refl l

theorem reverseRangeLoop_perm :
    ∀ (fuel : Nat) (l : List α) (i j : Nat),
      (reverseRangeLoop fuel l i j).Perm l
  | 0, l, _, _ => List.Perm.refl l
  | fuel+1, l, i, j => by
    unfold reverseRangeLoop
    split
    · exact (reverseRangeLoop_perm fuel _ _ _).trans (swapD_perm l _ _)
    · exact List.Perm.refl l

theorem reverseRangeGo_perm (a b fuel : Nat) (l : List α) :
    (reverseRangeGo a b fuel l).Perm l :=
  reverseRangeLoop_perm fuel l a (b-1)

theorem piShiftLeft_perm (less : α → α → Bool) :
    ∀ (fuel : Nat) (l : List α) (j : Nat),
      (piShiftLeft less fuel l j).Perm l
  | 0, l, _ => List.Perm.refl l
  | fuel+1, l, j => by
    unfold piShiftLeft
    split
    · split
      · exact List.Perm.refl l
      · exact (piShiftLeft_perm less fuel _ _).trans (swapD_perm l _ _)
    · exact List.Perm.refl l

theorem piShiftRight_perm (less : α → α → Bool) (b : Nat) :
    ∀ (fuel : Nat) (l : List α) (j : Nat),
      (piShiftRight less b fuel l j).Perm l
  | 0, l, _ => List.Perm.refl l
  | fuel+1, l, j => by
    unfold piShiftRight
    split
    · split
      · exact List.Perm.refl l
      · exact (piShiftRight_perm less b fuel _ _).trans (swapD_perm l _ _)
    · exact List.Perm.refl l

theorem partialInsertionSortSteps_perm (less : α → α → Bool) (a b fuel : Nat) :
    ∀ (steps : Nat) (l : List α) (i : Nat),
      (partialInsertionSortSteps less a b fuel steps l i).2.Perm l
  | 0, l, _ => List.Perm.refl l
  | steps+1, l, i => by
    unfold partialInsertionSortSteps
    simp only []
    split
    · exact List.Perm.refl l
    · split
      · exact List.Perm.refl l
      · refine (partialInsertionSortSteps_perm less a b fuel steps _ _).trans ?_
        refine List.Perm.trans ?_
          (swapD_perm l (piAdvance less b fuel l i) (piAdvance less b fuel l i - 1))
        split <;> split
        all_goals
          first
            | exact (piShiftRight_perm less b fuel _ _).trans
                (piShiftLeft_perm less fuel _ _)
            | exact piShiftRight_perm less b fuel _ _
            | exact piShiftLeft_perm less fuel _ _
            | exact List.Perm.refl _

theorem partialInsertionSortGo_perm (less : α → α → Bool) (a b fuel : Nat)
    (l : List α) : (partialInsertionSortGo less a b fuel l).2.Perm l :=
  partialInsertionSortSteps_perm less a b fuel 5 l (a+1)

theorem partitionEqualLoop_perm (less : α → α → Bool) (a : Nat) :
    ∀ (fuel : Nat) (l : List α) (i j : Nat),
      (partitionEqualLoop less a fuel l i j).2.Perm l
  | 0, l, _, _ => List.Perm.refl l
  | fuel+1, l, i, j => by
    unfold partitionEqualLoop
    simp only []
    split
    · exact List.Perm.refl l
    · exact (partitionEqualLoop_perm less a fuel _ _ _).trans (swapD_perm l _ _)

theorem partitionEqualGo_perm (less : α → α → Bool) (a b pivot fuel : Nat)
    (l : List α) : (partitionEqualGo less a b pivot fuel l).2.Perm l :=
  (partitionEqualLoop_perm less a fuel _ _ _).trans (swapD_perm l a pivot)

theorem partitionLoop_perm (less : α → α → Bool) (a : Nat) :
    ∀ (fuel : Nat) (l : List α) (i j : Nat),
      (partitionLoop less a fuel l i j).2.Perm l
  | 0, l, _, _ => List.Perm.refl l
  | fuel+1, l, i, j => by
    unfold partitionLoop
    simp only []
    split
    · exact List.Perm.refl l
    · exact (partitionLoop_perm less a fuel _ _ _).trans (swapD_perm l _ _)

theorem partitionGo_perm (less : α → α → Bool) (a b pivot fuel : Nat)
    (l : List α) : (partitionGo less a b pivot fuel l).2.2.Perm l := by
  unfold partitionGo
  simp only []
  split
  · exact (swapD_perm _ _ _).trans (swapD_perm l a pivot)
  · exact (swapD_perm _ _ _).trans
      ((partitionLoop_perm less a fuel _ _ _).trans
        ((swapD_perm _ _ _).trans (swapD_perm l a pivot)))

theorem pdqBreakStep_perm (wasBalanced : Bool) (a b limit : Nat) (l : List α) :
    (pdqBreakStep wasBalanced a b limit l).1.Perm l := by
  unfold pdqBreakStep
  split
  · exact breakPatternsGo_perm a b l
  · exact List.Perm.refl l

theorem pdqPivotStep_perm (less : α → α → Bool) (fuel a b : Nat) (l : List α) :
    (pdqPivotStep less fuel a b l).1.Perm l := by
  unfold pdqPivotStep
  simp only []
  split
  · exact reverseRangeGo_perm a b fuel l
  · exact List.Perm.refl l

theorem pdqPartialStep_perm (less : α → α → Bool) (guard : Bool)
    (a b fuel : Nat) (l : List α) :
    (pdqPartialStep less guard a b fuel l).2.Perm l := by
  unfold pdqPartialStep
  split
  · exact partialInsertionSortGo_perm less a b fuel l
  · exact List.Perm.refl l

theorem pdqsortGo_perm (less : α → α → Bool) :
    ∀ (fuel : Nat) (l : List α) (a b limit : Nat) (wb wp : Bool),
      (pdqsortGo less fuel l a b limit wb wp).Perm l
  | 0, l, _, _, _, _, _ => List.Perm.refl l
  | fuel+1, l, a, b, limit, wb, wp => by
    unfold pdqsortGo
    simp only []
    split
    · exact insertionSortGo_perm less a b fuel l
    · split
      · exact heapSortGo_perm less a b fuel l
      · have hPl : (pdqPartialStep less
            (wb && wp && decide ((pdqPivotStep less fuel a b
              (pdqBreakStep wb a b limit l).1).2.2 = SortedHint.increasing))
            a b fuel (pdqPivotStep less fuel a b
              (pdqBreakStep wb a b limit l).1).1).2.Perm l :=
          (pdqPartialStep_perm less _ a b fuel _).trans
            ((pdqPivotStep_perm less fuel a b _).trans
              (pdqBreakStep_perm wb a b limit l))
        split
        · exact hPl
        · split
          · exact (pdqsortGo_perm less fuel _ _ _ _ _ _).trans
              ((partitionEqualGo_perm less a b _ fuel _).trans hPl)
          · split
            · exact (pdqsortGo_perm less fuel _ _ _ _ _ _).trans
                ((pdqsortGo_perm less fuel _ _ _ _ _ _).trans
                  ((partitionGo_perm less a b _ fuel _).trans hPl))
            · exact (pdqsortGo_perm less fuel _ _ _ _ _ _).trans
                ((pdqsortGo_perm less fuel _ _ _ _ _ _).trans
                  ((partitionGo_perm less a b _ fuel _).trans hPl))

theorem sortSliceF_perm (less : α → α → Bool) (fuel : Nat) (l : List α) :
    (sortSliceF less fuel l).Perm l :=
  pdqsortGo_perm less fuel l 0 l.length (bitsLen l.length) true true

theorem sortSlice_perm (less : α → α → Bool) (l : List α) :
    (sortSlice less l).Perm l :=
  sortSliceF_perm less _ l

end GoSortPerm

/-! ## Lemmas on configs, lookup and distinct hosts -/

theorem cfgLookup_map_value (f : List String → List String) :
    ∀ (cfg : HostConfig) (path : String),
      cfgLookup (cfg.map fun p => (p.1, f p.2)) path = (cfgLookup cfg path).map f
  | [], _ => rfl
  | (k, v) :: rest, path => by
    by_cases h : (path == k) = true
    · simp [cfgLookup, List.lookup, h]
    · have ih := cfgLookup_map_value f rest path
      simp only [cfgLookup] at ih
      simp [cfgLookup, List.lookup, h, ih]

theorem map_fst_map_value (f : List String → List String) :
    ∀ (cfg : HostConfig),
      (cfg.map fun p => (p.1, f p.2)).map Prod.fst = cfg.map Prod.fst
  | [] => rfl
  | _ :: rest => by simp [map_fst_map_value f rest]

theorem cfgLookup_mem :
    ∀ (cfg : HostConfig) (p : String) (hs : List String),
      cfgLookup cfg p = some hs → (p, hs) ∈ cfg
  | [], p, hs, h => by simp [cfgLookup, List.lookup] at h
  | (k, v) :: rest, p, hs, h => by
    by_cases hk : (p == k) = true
    · simp only [cfgLookup, List.lookup, hk] at h
      have : p = k := by simpa using hk
      subst this
      injection h with h2
      subst h2
      exact List.mem_cons_self _ _
    · simp only [cfgLookup, List.lookup, hk] at h
      exact List.mem_cons_of_mem _ (cfgLookup_mem rest p hs h)

theorem mem_dedupAppend (acc : List String) (h x : String) :
    x ∈ dedupAppend acc h ↔ x ∈ acc ∨ x = h := by
  unfold dedupAppend
  split
  next hc =>
    constructor
    · exact Or.inl
    · rintro (hx | rfl)
      · exact hx
      · simpa using hc
  next => simp

theorem mem_foldl_dedupAppend :
    ∀ (l acc : List String) (x : String),
      x ∈ l.foldl dedupAppend acc ↔ x ∈ acc ∨ x ∈ l
  | [], acc, x => by simp
  | h :: t, acc, x => by
    simp only [List.foldl]
    rw [mem_foldl_dedupAppend t (dedupAppend acc h) x, mem_dedupAppend]
    simp only [List.mem_cons]
    constructor
    · rintro ((hx | rfl) | hx)
      · exact Or.inl hx
      · exact Or.inr (Or.inl rfl)
      · exact Or.inr (Or.inr hx)
    · rintro (hx | (rfl | hx))
      · exact Or.inl (Or.inl hx)
      · exact Or.inl (Or.inr rfl)
      · exact Or.inr hx

theorem mem_foldl_config :
    ∀ (cfg : HostConfig) (acc : List String) (x : String),
      x ∈ cfg.foldl (fun acc p => p.2.foldl dedupAppend acc) acc ↔
        x ∈ acc ∨ ∃ p ∈ cfg, x ∈ p.2
  | [], acc, x => by simp
  | p :: rest, acc, x => by
    simp only [List.foldl]
    rw [mem_foldl_config rest _ x, mem_foldl_dedupAppend]
    constructor
    · rintro ((hx | hx) | ⟨q, hq, hxq⟩)
      · exact Or.inl hx
      · exact Or.inr ⟨p, List.mem_cons_self p rest, hx⟩
      · exact Or.inr ⟨q, List.mem_cons_of_mem p hq, hxq⟩
    · rintro (hx | ⟨q, hq, hxq⟩)
      · exact Or.inl (Or.inl hx)
      · rcases List.mem_cons.1 hq with rfl | hq
        · exact Or.inl (Or.inr hxq)
        · exact Or.inr ⟨q, hq, hxq⟩

theorem mem_distinctHosts_iff (cfg : HostConfig) (x : String) :
    x ∈ distinctHosts cfg ↔ ∃ p ∈ cfg, x ∈ p.2 := by
  unfold distinctHosts
  rw [mem_foldl_config]
  simp

theorem head?_eq_of_all (l : List String) (h : String) (hne : l ≠ [])
    (hall : ∀ x ∈ l, x = h) : l.head? = some h := by
  cases l with
  | nil => exact absurd rfl hne
  | cons a t => simpa using hall a (List.mem_cons_self a t)

/-! ## Lemmas on header maps for the signer -/

theorem lookup_mapSet_self {β : Type _} :
    ∀ (H : List (String × β)) (k : String) (v : β),
      List.lookup k (mapSet H k v) = some v
  | [], k, v => by simp [mapSet, List.lookup]
  | (k2, v2) :: rest, k, v => by
    unfold mapSet
    split
    · simp [List.lookup]
    · next hne =>
      have : (k == k2) = false := by
        simp only [beq_eq_false_iff_ne, ne_eq]
        exact fun he => hne he.symm
      simp [List.lookup, this, lookup_mapSet_self rest k v]

theorem lookup_mapSet_ne {β : Type _} :
    ∀ (H : List (String × β)) (k k2 : String) (v : β), k ≠ k2 →
      List.lookup k (mapSet H k2 v) = List.lookup k H
  | [], k, k2, v, hne => by
    have : (k == k2) = false := by simpa using hne
    simp [mapSet, List.lookup, this]
  | (k3, v3) :: rest, k, k2, v, hne => by
    unfold mapSet
    split
    next he =>
      have h1 : (k == k2) = false := by simpa using hne
      have h3 : (k == k3) = false := by
        rw [he]
        exact h1
      simp [List.lookup, h1, h3]
    next =>
      by_cases hk3 : (k == k3) = true
      · simp [List.lookup, hk3]
      · simp only [Bool.not_eq_true] at hk3
        simp [List.lookup, hk3, lookup_mapSet_ne rest k k2 v hne]

theorem filterP_mapSet (pm : String → Bool) :
    ∀ (H : List (String × String)) (k v : String), pm k = true →
      (mapSet H k v).filter (fun p => pm p.1) =
        mapSet (H.filter fun p => pm p.1) k v
  | [], k, v, hk => by simp [mapSet, List.filter_cons, hk]
  | (k2, v2) :: rest, k, v, hk => by
    unfold mapSet
    split
    next he =>
      subst he
      simp [List.filter_cons, hk, mapSet]
    next hne =>
      by_cases h2 : pm k2 = true <;>
        simp [List.filter_cons, h2, hk, mapSet, hne,
          filterP_mapSet pm rest k v hk] <;>
        (cases List.filter (fun p => pm p.1) rest <;> rfl)

theorem lookup_filterP (pm : String → Bool) :
    ∀ (H : List (String × String)) (k : String), pm k = true →
      List.lookup k (H.filter fun p => pm p.1) = List.lookup k H
  | [], k, hk => rfl
  | (k2, v2) :: rest, k, hk => by
    by_cases he : (k == k2) = true
    · have : k = k2 := by simpa using he
      subst this
      simp [List.filter, hk, List.lookup]
    · simp only [Bool.not_eq_true] at he
      by_cases h2 : pm k2 = true
      · simp [List.filter, h2, List.lookup, he, lookup_filterP pm rest k hk]
      · simp [List.filter, h2, List.lookup, he, lookup_filterP pm rest k hk]

theorem map_fst_filterP (pm : String → Bool) :
    ∀ (H : List (String × String)),
      (H.filter fun p => pm p.1).map Prod.fst = (H.map Prod.fst).filter pm
  | [] => rfl
  | (k, v) :: rest => by
    by_cases h : pm k = true <;>
      simp [List.filter, h, map_fst_filterP pm rest]

theorem toNat_charOfNat_of_valid (n : Nat) (h : n.isValidChar) :
    (Char.ofNat n).toNat = n := by
  unfold Char.ofNat
  rw [dif_pos h]
  rfl

theorem charToLower_idem (c : Char) :
    charToLower (charToLower c) = charToLower c := by
  by_cases h : 65 ≤ c.toNat ∧ c.toNat ≤ 90
  · have hv : (c.toNat + 32).isValidChar := Or.inl (by omega)
    have ht : (Char.ofNat (c.toNat + 32)).toNat = c.toNat + 32 :=
      toNat_charOfNat_of_valid _ hv
    unfold charToLower
    rw [if_pos h, if_neg (by rw [ht]; omega)]
  · unfold charToLower
    rw [if_neg h, if_neg h]

theorem strToLower_idem (s : String) : strToLower (strToLower s) = strToLower s := by
  unfold strToLower
  simp only [String.data]
  rw [List.map_map]
  exact congrArg String.mk (List.map_congr_left fun c _ => charToLower_idem c)

theorem keysNormalized_mapSet_lower :
    ∀ (H : List (String × String)) (k v : String), keysNormalized H →
      keysNormalized (mapSet H (strToLower k) v)
  | [], k, v, hn => by
    intro p hp
    simp only [mapSet, List.mem_singleton] at hp
    subst hp
    exact strToLower_idem k
  | (k2, v2) :: rest, k, v, hn => by
    intro p hp
    unfold mapSet at hp
    split at hp
    · rcases List.mem_cons.1 hp with rfl | hp2
      · exact strToLower_idem k
      · exact hn p (List.mem_cons_of_mem _ hp2)
    · rcases List.mem_cons.1 hp with rfl | hp2
      · exact hn (k2, v2) (List.mem_cons_self _ _)
      · exact keysNormalized_mapSet_lower rest k v
          (fun q hq => hn q (List.mem_cons_of_mem _ hq)) p hp2

theorem keysNormalized_headerSet (H : List (String × String)) (k v : String)
    (hn : keysNormalized H) : keysNormalized (headerSet H k v) :=
  keysNormalized_mapSet_lower H k v hn

theorem peek_headerSet_self (H : List (String × String)) (k v : String) :
    headerPeek (headerSet H k v) k = some v :=
  lookup_mapSet_self H (strToLower k) v

theorem peek_headerSet_ne (H : List (String × String)) (kq k v : String)
    (hne : strToLower kq ≠ strToLower k) :
    headerPeek (headerSet H k v) kq = headerPeek H kq :=
  lookup_mapSet_ne H (strToLower kq) (strToLower k) v hne

theorem filterSigned_headerSet (H : List (String × String)) (k v : String)
    (hk : signedHeaderKey (strToLower k) = true) :
    filterSigned (headerSet H k v) = mapSet (filterSigned H) (strToLower k) v :=
  filterP_mapSet signedHeaderKey H (strToLower k) v hk

theorem lookup_filterSigned (H : List (String × String)) (k : String)
    (hk : signedHeaderKey k = true) :
    List.lookup k (filterSigned H) = List.lookup k H :=
  lookup_filterP signedHeaderKey H k hk

theorem peek_setIfAbsent_ne (H : List (String × String)) (kq k v : String)
    (hne : strToLower kq ≠ strToLower k) :
    headerPeek (setIfAbsent H k v) kq = headerPeek H kq := by
  unfold setIfAbsent
  split
  · exact peek_headerSet_ne H kq k v hne
  · split
    · exact peek_headerSet_ne H kq k v hne
    · rfl

theorem filterSigned_setIfAbsent (H : List (String × String)) (k v : String)
    (hk : signedHeaderKey (strToLower k) = true) :
    filterSigned (setIfAbsent H k v) = setIfAbsent (filterSigned H) k v := by
  unfold setIfAbsent headerPeek
  rw [lookup_filterSigned H (strToLower k) hk]
  cases List.lookup (strToLower k) H with
  | none => exact filterSigned_headerSet H k v hk
  | some old =>
    dsimp only
    by_cases ho : old = ""
    · rw [if_pos ho, if_pos ho]
      exact filterSigned_headerSet H k v hk
    · rw [if_neg ho, if_neg ho]

theorem keysNormalized_setIfAbsent (H : List (String × String)) (k v : String)
    (hn : keysNormalized H) : keysNormalized (setIfAbsent H k v) := by
  unfold setIfAbsent
  split
  · exact keysNormalized_headerSet H k v hn
  · split
    · exact keysNormalized_headerSet H k v hn
    · exact hn

theorem setIfAbsent_present (H : List (String × String)) (k v ts : String)
    (hpk : headerPeek H k = some ts) (hts : ts ≠ "") : setIfAbsent H k v = H := by
  unfold setIfAbsent
  rw [hpk]
  dsimp only
  rw [if_neg hts]

theorem headersToSign_congr (Ga Gb : List (String × String)) (keys : List String)
    (hpk : ∀ key ∈ keys, headerPeek Ga key = headerPeek Gb key) :
    String.join (keys.map fun key =>
      let value := ((headerPeek Ga key).getD "").trim
      let value := if key = "host" then stripDefaultPort value else value
      key ++ ":" ++ value ++ "\n") =
    String.join (keys.map fun key =>
      let value := ((headerPeek Gb key).getD "").trim
      let value := if key = "host" then stripDefaultPort value else value
      key ++ ":" ++ value ++ "\n") :=
  congrArg String.join (List.map_congr_left fun key hk => by rw [hpk key hk])

theorem hashedCanonicalRequestV4_congr (crypto : CryptoModel)
    (r1 r2 : SignRequest)
    (hm : r1.method = r2.method) (hp : r1.path = r2.path)
    (hh : r1.host = r2.host) (hq : r1.queryArgs = r2.queryArgs)
    (hb : r1.body = r2.body)
    (hn1 : keysNormalized r1.headers) (hn2 : keysNormalized r2.headers)
    (hsh : filterSigned r1.headers = filterSigned r2.headers) :
    (hashedCanonicalRequestV4 crypto r1).1 = (hashedCanonicalRequestV4 crypto r2).1 ∧
    (hashedCanonicalRequestV4 crypto r1).2.1 = (hashedCanonicalRequestV4 crypto r2).2.1 ∧
    filterSigned (hashedCanonicalRequestV4 crypto r1).2.2.headers =
      filterSigned (hashedCanonicalRequestV4 crypto r2).2.2.headers := by
  have hGfil : filterSigned (headerSet (headerSet r1.headers "X-Content-Sha256"
        (crypto.sha256Hex r2.body)) "Host" r2.host) =
      filterSigned (headerSet (headerSet r2.headers "X-Content-Sha256"
        (crypto.sha256Hex r2.body)) "Host" r2.host) := by
    rw [filterSigned_headerSet (headerSet r1.headers "X-Content-Sha256"
          (crypto.sha256Hex r2.body)) "Host" r2.host (by decide),
        filterSigned_headerSet r1.headers "X-Content-Sha256"
          (crypto.sha256Hex r2.body) (by decide),
        filterSigned_headerSet (headerSet r2.headers "X-Content-Sha256"
          (crypto.sha256Hex r2.body)) "Host" r2.host (by decide),
        filterSigned_headerSet r2.headers "X-Content-Sha256"
          (crypto.sha256Hex r2.body) (by decide),
        hsh]
  have hnG1 : keysNormalized (headerSet (headerSet r1.headers "X-Content-Sha256"
      (crypto.sha256Hex r2.body)) "Host" r2.host) :=
    keysNormalized_headerSet _ _ _ (keysNormalized_headerSet _ _ _ hn1)
  have hkeys : ((headerSet (headerSet r1.headers "X-Content-Sha256"
        (crypto.sha256Hex r2.body)) "Host" r2.host).map Prod.fst).filter
        signedHeaderKey =
      ((headerSet (headerSet r2.headers "X-Content-Sha256"
        (crypto.sha256Hex r2.body)) "Host" r2.host).map Prod.fst).filter
        signedHeaderKey := by
    rw [← map_fst_filterP signedHeaderKey, ← map_fst_filterP signedHeaderKey]
    have h := hGfil
    simp only [filterSigned] at h
    rw [h]
  have hpeek : ∀ key ∈ sortStrings (((headerSet (headerSet r1.headers
        "X-Content-Sha256" (crypto.sha256Hex r2.body)) "Host" r2.host).map
        Prod.fst).filter signedHeaderKey),
      headerPeek (headerSet (headerSet r1.headers "X-Content-Sha256"
        (crypto.sha256Hex r2.body)) "Host" r2.host) key =
      headerPeek (headerSet (headerSet r2.headers "X-Content-Sha256"
        (crypto.sha256Hex r2.body)) "Host" r2.host) key := by
    intro key hkm
    unfold sortStrings at hkm
    have hk2 := (List.mergeSort_perm _ _).mem_iff.1 hkm
    have hsig : signedHeaderKey key = true := (List.mem_filter.1 hk2).2
    have hmem := (List.mem_filter.1 hk2).1
    obtain ⟨p, hpmem, rfl⟩ := List.mem_map.1 hmem
    have hnorm : strToLower p.1 = p.1 := hnG1 p hpmem
    unfold headerPeek
    rw [hnorm, ← lookup_filterSigned _ p.1 hsig, hGfil,
        lookup_filterSigned _ p.1 hsig]
  unfold hashedCanonicalRequestV4
  simp only []
  rw [hm, hp, hq, hb, hh]
  refine ⟨?_, ?_, ?_⟩
  · apply congrArg
    apply congrArg
    rw [hkeys]
    have hjoin := headersToSign_congr
      (headerSet (headerSet r1.headers "X-Content-Sha256"
        (crypto.sha256Hex r2.body)) "Host" r2.host)
      (headerSet (headerSet r2.headers "X-Content-Sha256"
        (crypto.sha256Hex r2.body)) "Host" r2.host)
      (sortStrings (((headerSet (headerSet r2.headers "X-Content-Sha256"
        (crypto.sha256Hex r2.body)) "Host" r2.host).map Prod.fst).filter
        signedHeaderKey))
      (fun key hk => hpeek key (by rw [hkeys]; exact hk))
    rw [hjoin]
  · rw [hkeys]
  · dsimp only
    exact hGfil

/-! ## Theorems for the claims -/

/-- C2: the HMAC signer is deterministic in the inputs the spec lists.  Two
sign runs at arbitrary clock values on requests that agree on method, path,
host, query arguments, body, credentials and on the signed header subset
(with the X-Date timestamp preset and non-empty, so the clock is unused)
produce the same Authorization header value, whatever the unsigned headers
of the two requests are. -/
theorem sign_deterministic (crypto : CryptoModel) (cred : Credential)
    (nowTs1 nowTs2 : String) (req1 req2 : SignRequest) (ts : String)
    (hm : req1.method = req2.method) (hp : req1.path = req2.path)
    (hh : req1.host = req2.host) (hq : req1.queryArgs = req2.queryArgs)
    (hb : req1.body = req2.body)
    (hn1 : keysNormalized req1.headers) (hn2 : keysNormalized req2.headers)
    (hsh : filterSigned req1.headers = filterSigned req2.headers)
    (hxd : headerPeek req1.headers "X-Date" = some ts) (hts : ts ≠ "") :
    authorizationOf (sign crypto nowTs1 req1 cred) =
      authorizationOf (sign crypto nowTs2 req2 cred) := by
  have hxdsig : signedHeaderKey "x-date" = true := by decide
  have hlowxd : strToLower "X-Date" = "x-date" := by decide
  have hxd2 : headerPeek req2.headers "X-Date" = some ts := by
    unfold headerPeek at hxd ⊢
    rw [hlowxd] at hxd ⊢
    rw [← lookup_filterSigned req2.headers "x-date" hxdsig, ← hsh,
        lookup_filterSigned req1.headers "x-date" hxdsig]
    exact hxd
  have hpk1 : headerPeek (setIfAbsent req1.headers "Content-Type"
      "application/x-www-form-urlencoded; charset=utf-8") "X-Date" = some ts := by
    rw [peek_setIfAbsent_ne _ _ _ _
      (by decide : strToLower "X-Date" ≠ strToLower "Content-Type")]
    exact hxd
  have hpk2 : headerPeek (setIfAbsent req2.headers "Content-Type"
      "application/x-www-form-urlencoded; charset=utf-8") "X-Date" = some ts := by
    rw [peek_setIfAbsent_ne _ _ _ _
      (by decide : strToLower "X-Date" ≠ strToLower "Content-Type")]
    exact hxd2
  have hprep1 : prepareRequestV4 nowTs1 req1 =
      { req1 with
        headers := setIfAbsent req1.headers "Content-Type"
          "application/x-www-form-urlencoded; charset=utf-8",
        path := if req1.path = "" then "/" else req1.path } := by
    unfold prepareRequestV4
    simp only []
    rw [setIfAbsent_present _ _ _ ts hpk1 hts]
  have hprep2 : prepareRequestV4 nowTs2 req2 =
      { req2 with
        headers := setIfAbsent req2.headers "Content-Type"
          "application/x-www-form-urlencoded; charset=utf-8",
        path := if req2.path = "" then "/" else req2.path } := by
    unfold prepareRequestV4
    simp only []
    rw [setIfAbsent_present _ _ _ ts hpk2 hts]
  have hcon := hashedCanonicalRequestV4_congr crypto
    { req1 with
      headers := setIfAbsent req1.headers "Content-Type"
        "application/x-www-form-urlencoded; charset=utf-8",
      path := if req1.path = "" then "/" else req1.path }
    { req2 with
      headers := setIfAbsent req2.headers "Content-Type"
        "application/x-www-form-urlencoded; charset=utf-8",
      path := if req2.path = "" then "/" else req2.path }
    hm (by rw [hp]) hh hq hb
    (keysNormalized_setIfAbsent _ _ _ hn1)
    (keysNormalized_setIfAbsent _ _ _ hn2)
    (by
      rw [filterSigned_setIfAbsent _ _ _
            (by decide : signedHeaderKey (strToLower "Content-Type") = true),
          filterSigned_setIfAbsent _ _ _
            (by decide : signedHeaderKey (strToLower "Content-Type") = true),
          hsh])
  obtain ⟨hc1, hc2, hc3⟩ := hcon
  have hxdQ : headerPeek (hashedCanonicalRequestV4 crypto
      { req1 with
        headers := setIfAbsent req1.headers "Content-Type"
          "application/x-www-form-urlencoded; charset=utf-8",
        path := if req1.path = "" then "/" else req1.path }).2.2.headers
        "X-Date" =
      headerPeek (hashedCanonicalRequestV4 crypto
      { req2 with
        headers := setIfAbsent req2.headers "Content-Type"
          "application/x-www-form-urlencoded; charset=utf-8",
        path := if req2.path = "" then "/" else req2.path }).2.2.headers
        "X-Date" := by
    unfold headerPeek
    rw [hlowxd, ← lookup_filterSigned _ "x-date" hxdsig, hc3,
        lookup_filterSigned _ "x-date" hxdsig]
  have hsts : stringToSign (hashedCanonicalRequestV4 crypto
      { req1 with
        headers := setIfAbsent req1.headers "Content-Type"
          "application/x-www-form-urlencoded; charset=utf-8",
        path := if req1.path = "" then "/" else req1.path }).2.2.headers
      (hashedCanonicalRequestV4 crypto
      { req1 with
        headers := setIfAbsent req1.headers "Content-Type"
          "application/x-www-form-urlencoded; charset=utf-8",
        path := if req1.path = "" then "/" else req1.path }).1
      cred.region cred.service =
      stringToSign (hashedCanonicalRequestV4 crypto
      { req2 with
        headers := setIfAbsent req2.headers "Content-Type"
          "application/x-www-form-urlencoded; charset=utf-8",
        path := if req2.path = "" then "/" else req2.path }).2.2.headers
      (hashedCanonicalRequestV4 crypto
      { req2 with
        headers := setIfAbsent req2.headers "Content-Type"
          "application/x-www-form-urlencoded; charset=utf-8",
        path := if req2.path = "" then "/" else req2.path }).1
      cred.region cred.service := by
    unfold stringToSign
    rw [hxdQ, hc1]
  unfold sign
  simp only []
  rw [hprep1, hprep2, hsts, hc2]
  unfold authorizationOf
  dsimp only
  split
  · rw [peek_headerSet_ne _ _ _ _
        (by decide : strToLower "Authorization" ≠ strToLower "X-Security-Token"),
      peek_headerSet_ne _ _ _ _
        (by decide : strToLower "Authorization" ≠ strToLower "X-Security-Token"),
      peek_headerSet_self, peek_headerSet_self]
  · rw [peek_headerSet_self, peek_headerSet_self]

/-- Witness for C2: two sign runs at different clock times, on requests
that agree on the signed inputs but differ in an unsigned accept header
and in header order, yield the same Authorization value. -/
theorem sign_deterministic_witness :
    authorizationOf (sign
      { sha256Hex := fun s => "#" ++ s,
        hmacBytes := fun k c => "(" ++ k ++ "|" ++ c ++ ")",
        hexStr := fun s => s }
      "20250101T000000Z"
      { method := "POST", path := "/predict/api/home", host := "rec.example.com",
        queryArgs := [("b", "2")],
        headers := [("x-date", "20240101T000000Z"), ("accept", "application/json")],
        body := "req-body" }
      { accessKeyID := "AK", secretAccessKey := "SK", region := "sg",
        service := "air", sessionToken := "" }) =
    authorizationOf (sign
      { sha256Hex := fun s => "#" ++ s,
        hmacBytes := fun k c => "(" ++ k ++ "|" ++ c ++ ")",
        hexStr := fun s => s }
      "20260101T000000Z"
      { method := "POST", path := "/predict/api/home", host := "rec.example.com",
        queryArgs := [("b", "2")],
        headers := [("accept", "text/plain"), ("x-date", "20240101T000000Z")],
        body := "req-body" }
      { accessKeyID := "AK", secretAccessKey := "SK", region := "sg",
        service := "air", sessionToken := "" }) :=
  sign_deterministic
    { sha256Hex := fun s => "#" ++ s,
      hmacBytes := fun k c => "(" ++ k ++ "|" ++ c ++ ")",
      hexStr := fun s => s }
    { accessKeyID := "AK", secretAccessKey := "SK", region := "sg",
      service := "air", sessionToken := "" }
    "20250101T000000Z" "20260101T000000Z"
    { method := "POST", path := "/predict/api/home", host := "rec.example.com",
      queryArgs := [("b", "2")],
      headers := [("x-date", "20240101T000000Z"), ("accept", "application/json")],
      body := "req-body" }
    { method := "POST", path := "/predict/api/home", host := "rec.example.com",
      queryArgs := [("b", "2")],
      headers := [("accept", "text/plain"), ("x-date", "20240101T000000Z")],
      body := "req-body" }
    "20240101T000000Z"
    rfl rfl rfl rfl rfl (by unfold keysNormalized; decide)
    (by unfold keysNormalized; decide) (by decide) (by decide) (by decide)

/-- C1: the claim says that after every put, failureCount equals the number
of false entries in the buffer and failureRate is that count divided by N.
The code violates this: put decrements failureCount according to
items[tail] read after the new outcome was stored, i.e. according to the
oldest surviving slot, not the evicted one.  On a capacity-2 window after
put(false), put(false) the buffer holds two failures yet failureCount is 1
and failureRate is 1/2 instead of 1. -/
theorem window_put_failureCount_mismatch :
    ((newWindow 2).putAll [false, false]).failureCount = 1 ∧
    countFalse ((newWindow 2).putAll [false, false]).items = 2 ∧
    ((newWindow 2).putAll [false, false]).failureRate = 1/2 := by
  refine ⟨rfl, rfl, ?_⟩
  norm_num [Window.putAll, Window.put, newWindow, Window.failureRate]

/-- C3: with a present non-empty wildcard entry, GetHost of a path with no
entry or an empty entry equals GetHost of the wildcard, which is the first
element of the wildcard list; a path with a non-empty entry yields the
first element of that entry. -/
theorem GetHost_wildcard_fallback (cfg : HostConfig) (star : List String)
    (hstar : cfgLookup cfg "*" = some star) (hne : star ≠ []) (path : String) :
    (GetHost cfg "*" = some (star.head hne)) ∧
    ((cfgLookup cfg path = none ∨ cfgLookup cfg path = some []) →
      GetHost cfg path = GetHost cfg "*") ∧
    (∀ pathHosts (hpne : pathHosts ≠ []),
      cfgLookup cfg path = some pathHosts →
      GetHost cfg path = some (pathHosts.head hpne)) := by
  have hhead : star.head? = some (star.head hne) := by
    cases star with
    | nil => exact absurd rfl hne
    | cons a l => rfl
  have hwild : GetHost cfg "*" = some (star.head hne) := by
    unfold GetHost
    rw [hstar]
    cases star with
    | nil => exact absurd rfl hne
    | cons a l => simp
  refine ⟨hwild, ?_, ?_⟩
  · rintro (h | h) <;> unfold GetHost <;> rw [h, hstar] <;>
      cases star with
      | nil => exact absurd rfl hne
      | cons a l => simp
  · intro pathHosts hpne hp
    unfold GetHost
    rw [hp]
    cases pathHosts with
    | nil => exact absurd rfl hpne
    | cons a l => simp

/-- Witness for C3 at a concrete config. -/
theorem GetHost_wildcard_fallback_witness :
    GetHost [("*", ["A", "B"]), ("Predict", ["C"])] "Other" = some "A" ∧
    GetHost [("*", ["A", "B"]), ("Predict", ["C"])] "Predict" = some "C" := by
  have h := GetHost_wildcard_fallback [("*", ["A", "B"]), ("Predict", ["C"])]
    ["A", "B"] (by decide) (by decide) "Other"
  have h2 := GetHost_wildcard_fallback [("*", ["A", "B"]), ("Predict", ["C"])]
    ["A", "B"] (by decide) (by decide) "Predict"
  refine ⟨?_, ?_⟩
  · have := h.2.1 (Or.inl (by decide))
    rw [this, h.1]
    rfl
  · exact h2.2.2 ["C"] (by decide) (by decide)

set_option maxRecDepth 100000 in
/-- C4: the claim says equal-score hosts keep their previous relative order
(stable sort).  copyAndSortHost uses Go sort.Slice, which is not stable:
with thirteen hosts h0..h12 scored 1,0,2,0,3,3,3,3,1,0,3,0,3, the
equal-score hosts h1 and h3 (both score 0) come out in the order h3 before
h1 although h1 preceded h3 in the input (the Hoare partition step swaps
them long-range past each other).  The descending-score part of the claim
is visible in the output; the stability part is refuted. -/
theorem copyAndSortHost_not_stable :
    copyAndSortHost
      [("*", ["h0","h1","h2","h3","h4","h5","h6","h7","h8","h9","h10","h11","h12"])]
      [("h0",1),("h1",0),("h2",2),("h3",0),("h4",3),("h5",3),("h6",3),("h7",3),
       ("h8",1),("h9",0),("h10",3),("h11",0),("h12",3)] =
      [("*", ["h10","h12","h4","h5","h6","h7","h2","h0","h8","h3","h9","h11","h1"])] ∧
    List.indexOf "h1"
      ["h0","h1","h2","h3","h4","h5","h6","h7","h8","h9","h10","h11","h12"] <
    List.indexOf "h3"
      ["h0","h1","h2","h3","h4","h5","h6","h7","h8","h9","h10","h11","h12"] ∧
    List.indexOf "h3"
      ["h10","h12","h4","h5","h6","h7","h2","h0","h8","h3","h9","h11","h1"] <
    List.indexOf "h1"
      ["h10","h12","h4","h5","h6","h7","h2","h0","h8","h3","h9","h11","h1"] := by
  refine ⟨by decide, by decide, by decide⟩

/-- C10: copyAndSortHost keeps exactly the path keys of the config and
each path's new host list is a permutation of the old one; consequently a
re-scoring pass through doScoreAndUpdateHosts keeps a non-empty wildcard
entry non-empty. -/
theorem copyAndSortHost_permutes (cfg : HostConfig) (scores : List (String × ℚ)) :
    ((copyAndSortHost cfg scores).map Prod.fst = cfg.map Prod.fst) ∧
    (∀ path hs, cfgLookup cfg path = some hs →
      ∃ hs2, cfgLookup (copyAndSortHost cfg scores) path = some hs2 ∧ hs2.Perm hs) ∧
    (∀ (scoreHosts : List String → List (String × ℚ)) (star : List String),
      cfgLookup cfg "*" = some star → star ≠ [] →
      ∃ star2,
        cfgLookup (doScoreAndUpdateHosts scoreHosts cfg cfg) "*" = some star2 ∧
          star2 ≠ []) := by
  have hmap : ∀ (sc : List (String × ℚ)) (path : String),
      cfgLookup (copyAndSortHost cfg sc) path =
        (cfgLookup cfg path).map (sortSlice (hostLess (buildScoreIndex sc))) :=
    fun sc path => cfgLookup_map_value _ cfg path
  refine ⟨map_fst_map_value _ cfg, ?_, ?_⟩
  · intro path hs h
    refine ⟨sortSlice (hostLess (buildScoreIndex scores)) hs, ?_, sortSlice_perm _ hs⟩
    rw [hmap scores path, h]
    rfl
  · intro scoreHosts star hstar hne
    unfold doScoreAndUpdateHosts
    simp only []
    split
    · exact ⟨star, hstar, hne⟩
    · split
      · exact ⟨star, hstar, hne⟩
      · refine ⟨sortSlice (hostLess (buildScoreIndex
          (scoreHosts (distinctHosts cfg)))) star, ?_, ?_⟩
        · rw [hmap (scoreHosts (distinctHosts cfg)) "*", hstar]
          rfl
        · intro hnil
          have := (sortSlice_perm (hostLess (buildScoreIndex
            (scoreHosts (distinctHosts cfg)))) star).length_eq
          rw [hnil] at this
          exact hne (List.eq_nil_of_length_eq_zero this.symm)

/-- Witness for C10 at a concrete config and score list. -/
theorem copyAndSortHost_permutes_witness :
    (∃ hs2, cfgLookup (copyAndSortHost [("*", ["A", "B"])] [("A", 1), ("B", 2)])
        "*" = some hs2 ∧ hs2.Perm ["A", "B"]) ∧
    (∃ star2, cfgLookup (doScoreAndUpdateHosts (fun _ => [("A", 1)])
        [("*", ["A", "B"])] [("*", ["A", "B"])]) "*" = some star2 ∧ star2 ≠ []) :=
  ⟨(copyAndSortHost_permutes [("*", ["A", "B"])] [("A", 1), ("B", 2)]).2.1
      "*" ["A", "B"] (by decide),
   (copyAndSortHost_permutes [("*", ["A", "B"])] []).2.2
      (fun _ => [("A", 1)]) ["A", "B"] (by decide) (by decide)⟩

/-- C6: when the distinct host set of the config is the singleton h, the
ping scorer skips probing (the result and the window map do not depend on
the probe outcomes) and assigns score 0, and a scoring pass leaves
GetHost of the wildcard at h. -/
theorem ScoreHosts_singleton_keeps_host
    (windowSize : Nat) (ping : String → Bool) (wm : List (String × Window))
    (cfg : HostConfig) (h : String) (star : List String)
    (hd : distinctHosts cfg = [h])
    (hstar : cfgLookup cfg "*" = some star) (hne : star ≠ []) :
    ScoreHosts windowSize ping wm (distinctHosts cfg) = ([(h, 0)], wm) ∧
    GetHost (doScoreAndUpdateHosts
      (fun hosts => (ScoreHosts windowSize ping wm hosts).1) cfg cfg) "*" =
      some h := by
  have hall : ∀ x ∈ star, x = h := by
    intro x hx
    have hmem : x ∈ distinctHosts cfg :=
      (mem_distinctHosts_iff cfg x).2 ⟨("*", star), cfgLookup_mem cfg "*" star hstar, hx⟩
    rw [hd] at hmem
    simpa using hmem
  have hscore : ScoreHosts windowSize ping wm (distinctHosts cfg) = ([(h, 0)], wm) := by
    rw [hd]
    simp [ScoreHosts]
  refine ⟨hscore, ?_⟩
  unfold doScoreAndUpdateHosts
  simp only []
  rw [hscore]
  dsimp only
  rw [if_neg (by simp : ¬ ([(h, 0)] : List (String × ℚ)).length = 0)]
  split
  · unfold GetHost
    rw [hstar]
    have hpos : 0 < star.length := List.length_pos.2 hne
    simp only [hpos, if_pos]
    exact head?_eq_of_all star h hne hall
  · unfold GetHost
    unfold copyAndSortHost
    simp only []
    rw [cfgLookup_map_value _ cfg "*", hstar]
    simp only [Option.map]
    have hperm := sortSlice_perm
      (hostLess (buildScoreIndex ([(h, 0)] : List (String × ℚ)))) star
    have hne2 : sortSlice (hostLess (buildScoreIndex
        ([(h, 0)] : List (String × ℚ)))) star ≠ [] := by
      intro hnil
      have := hperm.length_eq
      rw [hnil] at this
      exact hne (List.eq_nil_of_length_eq_zero this.symm)
    have hpos : 0 < (sortSlice (hostLess (buildScoreIndex
        ([(h, 0)] : List (String × ℚ)))) star).length :=
      List.length_pos.2 hne2
    simp only [hpos, if_pos]
    exact head?_eq_of_all _ h hne2 (fun x hx => hall x (hperm.mem_iff.1 hx))

/-- Witness for C6: a single configured host scores zero without probing
and GetHost of the wildcard still returns it. -/
theorem ScoreHosts_singleton_keeps_host_witness :
    ScoreHosts 60 (fun _ => false) [] (distinctHosts [("*", ["h1"])]) =
      ([("h1", 0)], []) ∧
    GetHost (doScoreAndUpdateHosts
      (fun hosts => (ScoreHosts 60 (fun _ => false) [] hosts).1)
      [("*", ["h1"])] [("*", ["h1"])]) "*" = some "h1" :=
  ScoreHosts_singleton_keeps_host 60 (fun _ => false) [] [("*", ["h1"])]
    "h1" ["h1"] (by decide) (by decide) (by decide)

/-- C5: a fetch pass in which every decoded response lacks the wildcard
entry or carries an empty one leaves the stored config unchanged, so
GetHost is unchanged for every path. -/
theorem fetch_bad_wildcard_keeps_config
    (scoreHosts : List String → List (String × ℚ)) (stored : HostConfig) :
    ∀ (attempts : List (Option HostConfig)),
      (∀ rsp ∈ attempts, ∀ m, rsp = some m →
        cfgLookup m "*" = none ∨ cfgLookup m "*" = some []) →
      fetchHostsPass scoreHosts stored attempts = stored ∧
      ∀ path, GetHost (fetchHostsPass scoreHosts stored attempts) path =
        GetHost stored path
  | [], _ => ⟨rfl, fun _ => rfl⟩
  | none :: rest, hbad =>
    fetch_bad_wildcard_keeps_config scoreHosts stored rest
      (fun rsp hr => hbad rsp (List.mem_cons_of_mem _ hr))
  | some m :: rest, hbad => by
    have hm := hbad (some m) (List.mem_cons_self _ _) m rfl
    have heq : fetchHostsPass scoreHosts stored (some m :: rest) = stored := by
      unfold fetchHostsPass
      split
      · rfl
      · rcases hm with hm | hm
        · rw [hm]
        · rw [hm]
          simp
    exact ⟨heq, fun path => by rw [heq]⟩

/-- Witness for C5: a failed attempt followed by a response without a
wildcard entry changes nothing. -/
theorem fetch_bad_wildcard_keeps_config_witness :
    fetchHostsPass (fun _ => [("A", 1)]) [("*", ["A"])]
      [none, some [("Predict", ["C"])]] = [("*", ["A"])] ∧
    GetHost (fetchHostsPass (fun _ => [("A", 1)]) [("*", ["A"])]
      [none, some [("Predict", ["C"])]]) "Other" =
      GetHost [("*", ["A"])] "Other" :=
  have hbad : ∀ rsp ∈ ([none, some [("Predict", ["C"])]] :
      List (Option HostConfig)), ∀ m, rsp = some m →
      cfgLookup m "*" = none ∨ cfgLookup m "*" = some [] := by
    intro rsp hr m hm
    rcases List.mem_cons.1 hr with rfl | hr
    · exact absurd hm (by simp)
    · rcases List.mem_cons.1 hr with rfl | hr
      · injection hm with hm2
        subst hm2
        exact Or.inl (by decide)
      · simp at hr
  ⟨(fetch_bad_wildcard_keeps_config (fun _ => [("A", 1)]) [("*", ["A"])]
      [none, some [("Predict", ["C"])]] hbad).1,
   (fetch_bad_wildcard_keeps_config (fun _ => [("A", 1)]) [("*", ["A"])]
      [none, some [("Predict", ["C"])]] hbad).2 "Other"⟩

/-- C7: the claim says every non-timeout transport failure is returned
tagged with the netErrMark sentinel, so IsNetError holds for it.  The code
does the opposite: it returns such errors unchanged (only the timeout error
and the non-200 status error are tagged), and IsNetError is false on a
plain transport error such as a refused connection. -/
theorem doHTTPRequest_raw_transport_error :
    doHTTPRequest (Except.error "connection refused") =
      Except.error "connection refused" ∧
    IsNetError (some "connection refused") = false := by
  constructor
  · simp only [doHTTPRequest]
    rw [show strContains (strToLower "connection refused") "timeout" = false
      from by decide]
    rfl
  · decide

/-- C7 amended: doHTTPRequest tags the timeout transport failure and the
non-200 status with netErrMark (IsNetError holds for those), while every
other transport-level failure is returned unchanged. -/
theorem doHTTPRequest_error_classification :
    (∀ err : String, IsTimeoutError err = true →
      doHTTPRequest (Except.error err) = Except.error (netErrMark ++ " timeout")) ∧
    IsNetError (some (netErrMark ++ " timeout")) = true ∧
    (∀ err : String, IsTimeoutError err = false →
      doHTTPRequest (Except.error err) = Except.error err) ∧
    (∀ response : HTTPResponse, response.statusCode ≠ 200 →
      doHTTPRequest (Except.ok response) =
        Except.error (netErrMark ++ "http status not 200")) ∧
    IsNetError (some (netErrMark ++ "http status not 200")) = true := by
  refine ⟨?_, by decide, ?_, ?_, by decide⟩
  · intro err h
    simp only [doHTTPRequest]
    rw [show strContains (strToLower err) "timeout" = true from h]
    rfl
  · intro err h
    simp only [doHTTPRequest]
    rw [show strContains (strToLower err) "timeout" = false from h]
    rfl
  · intro response h
    simp only [doHTTPRequest]
    simp [h]

/-- Witness for the amended C7 at concrete errors and a concrete 500
response. -/
theorem doHTTPRequest_error_classification_witness :
    doHTTPRequest (Except.error "i/o Timeout") =
      Except.error (netErrMark ++ " timeout") ∧
    doHTTPRequest (Except.error "connection reset") =
      Except.error "connection reset" ∧
    doHTTPRequest (Except.ok
      { statusCode := 500, contentEncoding := "", body := "oops",
        gunzipOk := false, gunzipBody := "", gunzipErrText := "" }) =
      Except.error (netErrMark ++ "http status not 200") :=
  ⟨doHTTPRequest_error_classification.1 "i/o Timeout" (by decide),
   doHTTPRequest_error_classification.2.2.1 "connection reset" (by decide),
   doHTTPRequest_error_classification.2.2.2.1
     { statusCode := 500, contentEncoding := "", body := "oops",
       gunzipOk := false, gunzipBody := "", gunzipErrText := "" } (by decide)⟩

/-- C8: the claim says a second Shutdown produces no error and no panic.
Shutdown closes the stop channel whenever it is not nil, and the Go runtime
panics on closing a closed channel: after the first Shutdown of an
initialized availabler (open channel), a second Shutdown panics. -/
theorem Shutdown_twice_panics :
    Shutdown ChanState.openChan = Except.ok ChanState.closedChan ∧
    (Shutdown ChanState.openChan).bind Shutdown =
      Except.error "close of closed channel" :=
  ⟨rfl, rfl⟩

/-- Every Emit call keeps the capacity and never pushes the length past
the capacity. -/
theorem Emit_length_invariant {ε : Type _} (enabled cleaning : Bool)
    (q : EventQueue ε) (event : ε) (hle : q.buffer.length ≤ q.cap) :
    (Emit enabled cleaning q event).cap = q.cap ∧
    (Emit enabled cleaning q event).buffer.length ≤ q.cap := by
  unfold Emit
  split
  · exact ⟨rfl, hle⟩
  · split
    · exact ⟨rfl, hle⟩
    · split
      next hroom => exact ⟨rfl, by simpa using hroom⟩
      next => exact ⟨rfl, hle⟩

theorem emitAll_length_invariant {ε : Type _} :
    ∀ (events : List (Bool × Bool × ε)) (q : EventQueue ε),
      q.buffer.length ≤ q.cap → (emitAll q events).buffer.length ≤ q.cap
  | [], _, hle => hle
  | e :: rest, q, hle => by
    have step := Emit_length_invariant e.1 e.2.1 q e.2.2 hle
    have ih := emitAll_length_invariant rest (Emit e.1 e.2.1 q e.2.2)
      (step.1 ▸ step.2)
    rw [step.1] at ih
    exact ih

/-- C9: an Emit on a queue at capacity drops the event and leaves the queue
unchanged, and starting from the freshly created empty queue no sequence of
Emit calls ever grows the buffer beyond the capacity. -/
theorem Emit_full_drops {ε : Type _} (q : EventQueue ε) (event : ε)
    (enabled cleaning : Bool) (hfull : q.buffer.length = q.cap) :
    Emit enabled cleaning q event = q ∧
    ∀ (cap : Nat) (events : List (Bool × Bool × ε)),
      (emitAll (mkEventQueue ε cap) events).buffer.length ≤ cap := by
  constructor
  · unfold Emit
    split
    · rfl
    · split
      · rfl
      · split
        next hroom => exact absurd hfull (Nat.ne_of_lt hroom)
        next => rfl
  · intro cap events
    exact emitAll_length_invariant events (mkEventQueue ε cap) (by simp [mkEventQueue])

/-- Witness for C9 at a concrete full queue. -/
theorem Emit_full_drops_witness :
    Emit true false { cap := 2, buffer := [1, 2] } 3 =
      ({ cap := 2, buffer := [1, 2] } : EventQueue Nat) ∧
    ∀ (cap : Nat) (events : List (Bool × Bool × Nat)),
      (emitAll (mkEventQueue Nat cap) events).buffer.length ≤ cap :=
  Emit_full_drops { cap := 2, buffer := [1, 2] } 3 true false (by decide)

end RecCore
